import Mathlib

/-!
Verification development for the project-dashboard core services
(`src/core/services.py`, data model in `src/core/models.py`).

The Python code is shallowly embedded as executable Lean definitions:

* Python exceptions become the `PyErr` inductive; fallible code returns
  `Except PyErr _`.
* `json.loads` is embedded as `jsonLoads`, a recursive-descent parser over
  the standard JSON grammar producing `Json` values; Python `dict`
  semantics (last duplicate key wins, first-occurrence iteration order)
  are modelled by `lookupLast` / `pyDictItems`.
* The storage capability (`IFileSystemAdapter`, production implementation
  `AioFileSystemAdapter` in `src/infrastructure/adapters.py`) is modelled
  by `FS`: a list of paths mapped to `some content` (readable) or `none`
  (exists but unreadable).  `findFiles` models
  `glob.glob(os.path.join(root_dir, pattern), recursive=True)` for the
  five patterns the discovery service uses (a `**/` prefix followed by a
  literal file name or a `*.`-extension pattern; `glob` does not match
  hidden components).
* The config serializer (`IConfigSerializer`, an opaque encode/decode
  contract per the design: PyYAML plus the `ProjectConfig(**data)`
  field-spreading step) is modelled by injected parameters
  `encode : ProjectConfig → String` and
  `decode : String → Except PyErr ProjectConfig`.
* `uuid.uuid4()` id generation for discovered `Target`s is modelled by an
  injected id supply `ids : Nat → String` consumed in creation order.
-/

namespace ProjectDashboard

/-- Model of the Python exceptions the services can raise or catch:
`json.JSONDecodeError`, `KeyError`, `AttributeError` (carrying the missing
attribute name), `OSError` (carrying the offending path), `ValueError`
and `TypeError` (carrying the message). -/
inductive PyErr where
  | jsonDecodeError : PyErr
  | keyError : String → PyErr
  | attributeError : String → PyErr
  | osError : String → PyErr
  | valueError : String → PyErr
  | typeError : String → PyErr
deriving DecidableEq, Repr

/-- Model of the Python values produced by `json.loads`: JSON null, booleans,
numbers (kept as their lexeme, the services never use the numeric value),
strings, arrays and objects (raw key/value pair list in source order). -/
inductive Json where
  | null : Json
  | bool : Bool → Json
  | num : String → Json
  | str : String → Json
  | arr : List Json → Json
  | obj : List (String × Json) → Json

/-- JSON insignificant whitespace, as accepted by `json.loads`. -/
def jsonWs (c : Char) : Bool :=
  c = ' ' || c = '\t' || c = '\n' || c = '\r'

/-- Drop leading JSON whitespace. -/
def skipWs : List Char → List Char
  | [] => []
  | c :: cs => if jsonWs c then skipWs cs else c :: cs

/-- Hexadecimal digit test, for `\uXXXX` string escapes. -/
def isHexDigit (c : Char) : Bool :=
  c.isDigit || (decide ('a' ≤ c) && decide (c ≤ 'f')) || (decide ('A' ≤ c) && decide (c ≤ 'F'))

/-- Value of a hexadecimal digit. -/
def hexVal (c : Char) : Nat :=
  if c.isDigit then c.toNat - '0'.toNat
  else if decide ('a' ≤ c) then c.toNat - 'a'.toNat + 10
  else c.toNat - 'A'.toNat + 10

/-- Parse the remainder of a JSON string literal (the opening quote already
consumed), handling the escape sequences of the JSON grammar; `fuel` only
bounds the recursion (each step consumes input).  Returns the decoded
characters and the input following the closing quote. -/
def parseStrChars : Nat → List Char → Option (List Char × List Char)
  | 0, _ => none
  | _, [] => none
  | _ + 1, '"' :: rest => some ([], rest)
  | fuel + 1, '\\' :: 'u' :: a :: b :: c :: d :: rest =>
    if isHexDigit a && isHexDigit b && isHexDigit c && isHexDigit d then
      (parseStrChars fuel rest).map (fun p =>
        (Char.ofNat (hexVal a * 4096 + hexVal b * 256 + hexVal c * 16 + hexVal d) :: p.1, p.2))
    else none
  | fuel + 1, '\\' :: e :: rest =>
    let dec : Option Char :=
      if e = '"' then some '"'
      else if e = '\\' then some '\\'
      else if e = '/' then some '/'
      else if e = 'n' then some '\n'
      else if e = 't' then some '\t'
      else if e = 'r' then some '\r'
      else if e = 'b' then some (Char.ofNat 8)
      else if e = 'f' then some (Char.ofNat 12)
      else none
    match dec with
    | some ch => (parseStrChars fuel rest).map (fun p => (ch :: p.1, p.2))
    | none => none
  | fuel + 1, c :: rest => (parseStrChars fuel rest).map (fun p => (c :: p.1, p.2))

/-- Parse a JSON number lexeme: `-?(0|[1-9][0-9]*)(.[0-9]+)?([eE][+-]?[0-9]+)?`.
Returns the lexeme and the rest of the input. -/
def parseNumber (s : List Char) : Option (List Char × List Char) :=
  let (neg, s1) : List Char × List Char :=
    match s with
    | '-' :: r => (['-'], r)
    | _ => ([], s)
  match s1 with
  | '0' :: r => some (neg ++ ['0'], r)
  | c :: _ =>
    if c.isDigit then
      some (neg ++ s1.takeWhile Char.isDigit, s1.dropWhile Char.isDigit)
    else none
  | [] => none

/-- Parse the optional fractional part after an integer lexeme. -/
def parseFrac (s : List Char) : Option (List Char × List Char) :=
  match s with
  | '.' :: r =>
    match r with
    | c :: _ =>
      if c.isDigit then some ('.' :: r.takeWhile Char.isDigit, r.dropWhile Char.isDigit)
      else none
    | [] => none
  | _ => some ([], s)

/-- Parse the optional exponent part of a JSON number. -/
def parseExp (s : List Char) : Option (List Char × List Char) :=
  match s with
  | e :: r =>
    if e = 'e' || e = 'E' then
      let (sg, r1) : List Char × List Char :=
        match r with
        | '+' :: r2 => (['+'], r2)
        | '-' :: r2 => (['-'], r2)
        | _ => ([], r)
      match r1 with
      | c :: _ =>
        if c.isDigit then some (e :: sg ++ r1.takeWhile Char.isDigit, r1.dropWhile Char.isDigit)
        else none
      | [] => none
    else some ([], s)
  | [] => some ([], s)

/-- Parse a full JSON number (integer, fraction, exponent). -/
def parseNum (s : List Char) : Option (Json × List Char) := do
  let (ip, r1) ← parseNumber s
  let (fp, r2) ← parseFrac r1
  let (ep, r3) ← parseExp r2
  some (.num (String.mk (ip ++ fp ++ ep)), r3)

mutual

/-- Recursive-descent parser for a JSON value; `fuel` bounds the recursion
depth (each nested construct consumes input, so linear fuel suffices). -/
def parseVal : Nat → List Char → Option (Json × List Char)
  | 0, _ => none
  | fuel + 1, s =>
    match skipWs s with
    | [] => none
    | '{' :: rest =>
      (match skipWs rest with
       | '}' :: r => some (.obj [], r)
       | r => (parseMembers fuel r).map (fun p => (.obj p.1, p.2)))
    | '[' :: rest =>
      (match skipWs rest with
       | ']' :: r => some (.arr [], r)
       | r => (parseElems fuel r).map (fun p => (.arr p.1, p.2)))
    | '"' :: rest => (parseStrChars fuel rest).map (fun p => (.str (String.mk p.1), p.2))
    | 't' :: 'r' :: 'u' :: 'e' :: rest => some (.bool true, rest)
    | 'f' :: 'a' :: 'l' :: 's' :: 'e' :: rest => some (.bool false, rest)
    | 'n' :: 'u' :: 'l' :: 'l' :: rest => some (.null, rest)
    | s1 => parseNum s1

/-- Parse the members of a JSON object, positioned at the first key. -/
def parseMembers : Nat → List Char → Option (List (String × Json) × List Char)
  | 0, _ => none
  | fuel + 1, s =>
    match skipWs s with
    | '"' :: rest =>
      (match parseStrChars fuel rest with
       | none => none
       | some (key, r1) =>
         match skipWs r1 with
         | ':' :: r2 =>
           (match parseVal fuel r2 with
            | none => none
            | some (v, r3) =>
              match skipWs r3 with
              | ',' :: r4 =>
                (parseMembers fuel r4).map (fun p => ((String.mk key, v) :: p.1, p.2))
              | '}' :: r4 => some ([(String.mk key, v)], r4)
              | _ => none)
         | _ => none)
    | _ => none

/-- Parse the elements of a JSON array, positioned at the first element. -/
def parseElems : Nat → List Char → Option (List Json × List Char)
  | 0, _ => none
  | fuel + 1, s =>
    match parseVal fuel s with
    | none => none
    | some (v, r) =>
      match skipWs r with
      | ',' :: r2 => (parseElems fuel r2).map (fun p => (v :: p.1, p.2))
      | ']' :: r2 => some ([v], r2)
      | _ => none

end

/-- Model of `json.loads`: parse the whole string as one JSON value,
raising `json.JSONDecodeError` on any syntax error or trailing input. -/
def jsonLoads (content : String) : Except PyErr Json :=
  match parseVal (content.length * 2 + 16) content.data with
  | some (v, rest) => if (skipWs rest).isEmpty then .ok v else .error .jsonDecodeError
  | none => .error .jsonDecodeError

/-- Value of a key in a raw JSON object pair list under Python `dict`
semantics: the last binding of the key wins. -/
def lookupLast (kvs : List (String × Json)) (k : String) : Option Json :=
  ((kvs.reverse).find? (fun p => p.1 == k)).map (fun p => p.2)

/-- First occurrence of each element not already in `seen`, in order. -/
def firstOccAux (seen : List String) : List String → List String
  | [] => []
  | k :: ks => if seen.contains k then firstOccAux seen ks
               else k :: firstOccAux (k :: seen) ks

/-- First occurrence of each element, in order (key iteration order of a
Python `dict` built from the pair list). -/
def firstOcc (l : List String) : List String := firstOccAux [] l

/-- Model of Python `dict.items()` for a dict built from the raw pair list:
first-occurrence key order, last value for each key. -/
def pyDictItems (kvs : List (String × Json)) : List (String × Json) :=
  (firstOcc (kvs.map Prod.fst)).map (fun k => (k, (lookupLast kvs k).getD Json.null))

/-- Model of `data.get(key, default)`: only `dict` objects have a `get`
attribute; any other value raises `AttributeError`. -/
def pyGet (j : Json) (k : String) (d : Json) : Except PyErr Json :=
  match j with
  | .obj kvs => .ok ((lookupLast kvs k).getD d)
  | _ => .error (.attributeError "get")

/-- Model of `value.items()`: only `dict` objects have an `items` attribute;
any other value raises `AttributeError`. -/
def pyItems (j : Json) : Except PyErr (List (String × Json)) :=
  match j with
  | .obj kvs => .ok (pyDictItems kvs)
  | _ => .error (.attributeError "items")

/-- String prefix test over the character lists (kernel-computable model
of `str.startswith`). -/
def strStartsWith (s pre : String) : Bool := pre.data.isPrefixOf s.data

/-- String suffix test over the character lists (kernel-computable model
of `str.endswith`). -/
def strEndsWith (s suf : String) : Bool := suf.data.isSuffixOf s.data

/-- Drop the first `n` characters of a string. -/
def strDrop (s : String) (n : Nat) : String := String.mk (s.data.drop n)

/-- Split on a non-empty separator, left to right, non-overlapping; `fuel`
only bounds the recursion (each step consumes input). -/
def splitOnAuxC (sep : List Char) : Nat → List Char → List Char → List (List Char)
  | 0, acc, _ => [acc.reverse]
  | _ + 1, acc, [] => [acc.reverse]
  | fuel + 1, acc, c :: cs =>
    if sep.isPrefixOf (c :: cs) then
      acc.reverse :: splitOnAuxC sep fuel [] ((c :: cs).drop sep.length)
    else splitOnAuxC sep fuel (c :: acc) cs

/-- Split a string on a separator (kernel-computable model of
`str.split(sep)` for a non-empty separator). -/
def splitOnStr (s sep : String) : List String :=
  if sep.data.isEmpty then [s]
  else (splitOnAuxC sep.data (s.data.length + 1) [] s.data).map String.mk

/-- Model of the storage capability: the files visible to the adapter.
An entry maps a path to `some content` (readable) or `none` (the file
exists but reading it raises `OSError`). -/
structure FS where
  files : List (String × Option String)
deriving DecidableEq, Repr

/-- Model of `AioFileSystemAdapter.file_exists` (`os.path.exists`). -/
def fileExists (fs : FS) (path : String) : Bool :=
  (List.lookup path fs.files).isSome

/-- Model of `AioFileSystemAdapter.read_file`: returns the contents, or
raises `OSError` for a missing or unreadable file. -/
def readFile (fs : FS) (path : String) : Except PyErr String :=
  match List.lookup path fs.files with
  | some (some c) => .ok c
  | some none => .error (.osError path)
  | none => .error (.osError path)

/-- Model of `AioFileSystemAdapter.write_file`: create or overwrite. -/
def writeFile (fs : FS) (path content : String) : FS :=
  ⟨(path, some content) :: fs.files.filter (fun e => e.1 != path)⟩

/-- Model of `os.path.join(a, b)` for a path and a trailing component. -/
def pyPathJoin (a b : String) : String :=
  if a = "" then b
  else if strEndsWith a "/" then a ++ b
  else a ++ "/" ++ b

/-- Model of `os.path.basename`: the part after the last slash. -/
def basename (p : String) : String :=
  (splitOnStr p "/").getLastD ""

/-- Model of the Python `in` substring test (`sub in s`). -/
def pyContains (s sub : String) : Bool :=
  (splitOnStr s sub).length ≥ 2

/-- Does a path component's name match the base of one of the discovery
glob patterns?  A `*.`-extension pattern matches per `fnmatch`, except
that `*` never matches a leading dot; a literal base matches exactly. -/
def matchBase (base name : String) : Bool :=
  if strStartsWith base "*." then
    !(strStartsWith name ".") && strEndsWith name (strDrop base 1)
  else name == base

/-- Model of one path matching `glob.glob(os.path.join(root, "**/" ++ base),
recursive := True)`: the path lies under `root`, every component that `**`
traverses is non-hidden (glob skips hidden directories), and the final
component matches `base`. -/
def matchesGlob (root base path : String) : Bool :=
  let pre := if root = "" then "" else if strEndsWith root "/" then root else root ++ "/"
  if strStartsWith path pre && path.data.length > pre.data.length then
    let comps := splitOnStr (strDrop path pre.data.length) "/"
    comps.all (fun c => c != "" && !(strStartsWith c ".")) && matchBase base (comps.getLastD "")
  else false

/-- Model of `AioFileSystemAdapter.find_files` for the `"**/" ++ base`
patterns used by the discovery service. -/
def findFiles (fs : FS) (base root : String) : List String :=
  (fs.files.map Prod.fst).filter (matchesGlob root base)

/-- The data of a discovered target before id assignment: the arguments the
discovery loops pass to the `Target(...)` constructor. -/
structure PreTarget where
  name : String
  command : String
  source_file : String
deriving DecidableEq, Repr

/-- Model of the `Target` dataclass (`src/core/models.py`). -/
structure Target where
  name : String
  command : String
  source_file : String
  id : String
  notes : Option String := none
  group_id : Option String := none
deriving DecidableEq, Repr

/-- Model of the `TargetGroup` dataclass (`src/core/models.py`). -/
structure TargetGroup where
  name : String
  display_order : Int
  id : String
deriving DecidableEq, Repr

/-- Model of the `ProjectConfig` dataclass (`src/core/models.py`). -/
structure ProjectConfig where
  project_name : String
  targets : List Target := []
  groups : List TargetGroup := []
  version : String := "1.0"
  shell : Option String := none
deriving DecidableEq, Repr

/-- Materialize pre-targets into `Target`s, drawing the generated ids from
the supply in creation order (models `uuid.uuid4()` per construction). -/
def materialize (ids : Nat → String) : Nat → List PreTarget → List Target
  | _, [] => []
  | k, p :: ps =>
    ⟨p.name, p.command, p.source_file, ids k, none, none⟩ :: materialize ids (k + 1) ps

/-- The identifier-independent data of a target. -/
def targetKey (t : Target) : String × String × String :=
  (t.name, t.command, t.source_file)

/-- The identifier-independent data of a pre-target. -/
def preKey (p : PreTarget) : String × String × String :=
  (p.name, p.command, p.source_file)

/-! ## Target discovery (`DiscoveryService`, `src/core/services.py` lines 44-184) -/

/-- Per-file body of `_discover_from_package_json` after the file has been
read (lines 69-78): `json.loads`, `data.get("scripts", {})`, iterate
`scripts.items()` building one target per script entry. -/
def packageFileRaw (path content : String) : Except PyErr (List PreTarget) := do
  let data ← jsonLoads content
  let scripts ← pyGet data "scripts" (Json.obj [])
  let items ← pyItems scripts
  .ok (items.map (fun p => ⟨p.1, "npm run " ++ p.1, path⟩))

/-- The exceptions caught by the package-json loop:
`except (json.JSONDecodeError, KeyError)` (line 79). -/
def pkgCaught : PyErr → Bool
  | .jsonDecodeError => true
  | .keyError _ => true
  | _ => false

/-- The per-file loop of `_discover_from_package_json` (lines 66-80): a
caught exception makes the file contribute nothing (`continue`), any other
exception propagates. -/
def pkgGo (fs : FS) : List String → Except PyErr (List PreTarget)
  | [] => .ok []
  | f :: rest =>
    match readFile fs f with
    | .error e => .error e
    | .ok content =>
      match packageFileRaw f content with
      | .ok ts => (pkgGo fs rest).map (fun acc => ts ++ acc)
      | .error e => if pkgCaught e then pkgGo fs rest else .error e

/-- Model of `_discover_from_package_json` (lines 60-81). -/
def discoverFromPackageJson (fs : FS) (root : String) : Except PyErr (List PreTarget) :=
  pkgGo fs (findFiles fs "package.json" root)

/-- Character class of the rule-header identifier in the Makefile regex
`^([a-zA-Z0-9_-]+)\s*:` (line 107). -/
def identChar (c : Char) : Bool :=
  c.isAlpha || c.isDigit || c = '_' || c = '-'

/-- The characters matched by `\s` in the Python regex (ASCII range). -/
def pyWs (c : Char) : Bool :=
  c = ' ' || c = '\t' || c = '\n' || c = '\r' || c = Char.ofNat 11 || c = Char.ofNat 12

/-- Attempt the regex `([a-zA-Z0-9_-]+)\s*:` at the current position:
a maximal non-empty identifier run, a maximal whitespace run, then a colon
(the runs are maximal because the three classes are disjoint, so greedy
matching with backtracking is deterministic here).  Returns the captured
identifier and the input after the colon. -/
def tryMatch (s : List Char) : Option (List Char × List Char) :=
  if (s.takeWhile identChar).isEmpty then none
  else
    match (s.dropWhile identChar).dropWhile pyWs with
    | c :: r => if c = ':' then some (s.takeWhile identChar, r) else none
    | [] => none

/-- Uppercase a character as Python `str.upper` does on ASCII. -/
def pyUpperChar (c : Char) : Char :=
  if decide ('a' ≤ c) && decide (c ≤ 'z') then Char.ofNat (c.toNat - 32) else c

/-- Model of the `target_name.startswith('.') and target_name.upper() ==
target_name` directive test (line 113). -/
def isDirective (n : List Char) : Bool :=
  decide (n.head? = some '.') && decide (n.map pyUpperChar = n)

theorem tryMatch_shape {s m r : List Char} (h : tryMatch s = some (m, r)) :
    m = s.takeWhile identChar ∧ m ≠ [] ∧
      ∃ w, (∀ c ∈ w, pyWs c = true) ∧ s = m ++ (w ++ ':' :: r) := by
  simp only [tryMatch] at h
  by_cases he : (s.takeWhile identChar).isEmpty
  · rw [if_pos he] at h; exact Option.noConfusion h
  · rw [if_neg he] at h
    rcases hw : (s.dropWhile identChar).dropWhile pyWs with _ | ⟨c, r'⟩
    · rw [hw] at h; exact Option.noConfusion h
    · rw [hw] at h
      change (if c = ':' then some (List.takeWhile identChar s, r') else none) = some (m, r) at h
      by_cases hc : c = ':'
      · rw [if_pos hc] at h
        subst hc
        simp only [Option.some.injEq, Prod.mk.injEq] at h
        obtain ⟨hm, hr⟩ := h
        subst hr
        refine ⟨hm.symm, ?_, (s.dropWhile identChar).takeWhile pyWs, ?_, ?_⟩
        · intro hnil
          exact he (by rw [hm, hnil]; rfl)
        · intro ch hch; exact List.mem_takeWhile_imp hch
        · conv_lhs => rw [← List.takeWhile_append_dropWhile identChar s]
          rw [hm]
          conv_lhs => rw [← List.takeWhile_append_dropWhile pyWs (s.dropWhile identChar)]
          rw [hw]
      · rw [if_neg hc] at h; exact Option.noConfusion h

theorem tryMatch_length {s m r : List Char} (h : tryMatch s = some (m, r)) :
    r.length < s.length := by
  obtain ⟨-, hm, w, -, hs⟩ := tryMatch_shape h
  have : s.length = m.length + w.length + (r.length + 1) := by
    subst hs; simp [List.length_append]; omega
  have hml : 1 ≤ m.length := by
    cases m with
    | nil => exact absurd rfl hm
    | cons a l => simp
  omega

/-- The scanning loop of `re.finditer` for the multiline-anchored pattern
`^([a-zA-Z0-9_-]+)\s*:` over the file content, combined with the loop body
of `_discover_from_makefiles` (lines 109-122): at a line start
(`atStart = true`: position 0 or just after a newline) the pattern is
attempted; on a match the directive test is applied and the identifier
recorded, and scanning resumes after the match; otherwise scanning advances
one character.  `fuel` only bounds the recursion: every step consumes at
least one character, so any fuel exceeding the input length is adequate. -/
def scanM : Nat → List Char → Bool → List (List Char)
  | 0, _, _ => []
  | _, [], _ => []
  | fuel + 1, c :: cs, atStart =>
    if atStart then
      match tryMatch (c :: cs) with
      | some (name, r) =>
        if isDirective name then scanM fuel r false
        else name :: scanM fuel r false
      | none => scanM fuel cs (c = '\n')
    else scanM fuel cs (c = '\n')

/-- Per-file body of `_discover_from_makefiles` (lines 100-125): read the
file (any exception silently skips it), scan for rule headers, and build
one `make <name>` target per surviving identifier. -/
def perFileMakefile (fs : FS) (f : String) : List PreTarget :=
  match readFile fs f with
  | .error _ => []
  | .ok content =>
    (scanM (content.data.length + 1) content.data true).map
      (fun n => ⟨String.mk n, "make " ++ String.mk n, f⟩)

/-- Model of `_discover_from_makefiles` (lines 83-127): find both case
variants, deduplicate by path (`list(set(...))`, modelled order-preserving),
then scan each file. -/
def discoverFromMakefiles (fs : FS) (root : String) : List PreTarget :=
  let files := firstOcc (findFiles fs "Makefile" root ++ findFiles fs "makefile" root)
  (files.map (perFileMakefile fs)).flatten

/-- The basenames excluded from Python-script discovery (lines 145-149). -/
def excludedPyNames : List String := ["setup.py", "__init__.py", "conftest.py"]

/-- Model of `_discover_from_scripts` (lines 129-184): every shell script
becomes a `bash <path>` target; Python scripts are filtered by excluded
basenames and excluded directory segments, the rest become `python <path>`
targets. -/
def discoverFromScripts (fs : FS) (root : String) : List PreTarget :=
  let shTargets := (findFiles fs "*.sh" root).map
    (fun p => PreTarget.mk (basename p) ("bash " ++ p) p)
  let pyTargets := ((findFiles fs "*.py" root).filter (fun p =>
      !(excludedPyNames.contains (basename p)) &&
      !(pyContains p "/src/") && !(pyContains p "/tests/") &&
      !(pyContains p "/__pycache__/"))).map
    (fun p => PreTarget.mk (basename p) ("python " ++ p) p)
  shTargets ++ pyTargets

/-- Model of `DiscoveryService.discover_targets` (lines 50-58) up to id
assignment: the three sub-scans in source order, concatenated; an exception
escaping a sub-scan propagates. -/
def discoverPre (fs : FS) (root : String) : Except PyErr (List PreTarget) := do
  let pkg ← discoverFromPackageJson fs root
  let mk := discoverFromMakefiles fs root
  let sc := discoverFromScripts fs root
  .ok (pkg ++ mk ++ sc)

/-- Model of `DiscoveryService.discover_targets` (lines 50-58): the merged
pre-targets materialized with generated ids in creation order. -/
def discover_targets (fs : FS) (ids : Nat → String) (root : String) :
    Except PyErr (List Target) :=
  (discoverPre fs root).map (materialize ids 0)

/-! ## Configuration persistence (`ConfigurationService`, lines 17-41) -/

/-- The fixed dotfile name of the persisted configuration (line 14). -/
def CONFIG_FILE_NAME : String := ".project-dashboard.yml"

/-- Model of `ConfigurationService.load_config` (lines 28-35): `None` when
the file does not exist; otherwise read it and decode it (the opaque
serializer `deserialize` composed with the `ProjectConfig(**config_data)`
construction, injected as `decode`); read and decode failures propagate. -/
def load_config (decode : String → Except PyErr ProjectConfig) (fs : FS)
    (project_root : String) : Except PyErr (Option ProjectConfig) :=
  let config_path := pyPathJoin project_root CONFIG_FILE_NAME
  if fileExists fs config_path then do
    let content ← readFile fs config_path
    let cfg ← decode content
    .ok (some cfg)
  else .ok none

/-- Model of `ConfigurationService.save_config` (lines 38-41): serialize via
the opaque serializer (injected as `encode`) and write to the config path. -/
def save_config (encode : ProjectConfig → String) (fs : FS)
    (project_root : String) (config : ProjectConfig) : FS :=
  writeFile fs (pyPathJoin project_root CONFIG_FILE_NAME) (encode config)

/-! ## Process registry (`ExecutionService`, lines 187-217)

The registry `self._running_processes : Dict[int, Any]` is modelled by its
key list in insertion order (Python dict semantics); all mutations happen
under the service's lock, so the sequential functions below model the
serialized mutation order. -/

/-- Registration step of `ExecutionService.run_target` (line 198):
`self._running_processes[process.pid] = process` on the key list —
inserting an existing key overwrites in place, a new key appends. -/
def registerPid (r : List Nat) (pid : Nat) : List Nat :=
  if pid ∈ r then r else r ++ [pid]

/-- The close-callback installed by `run_target` (lines 200-205): remove
the pid if it is present, otherwise do nothing. -/
def onClosePid (r : List Nat) (pid : Nat) : List Nat :=
  if pid ∈ r then r.erase pid else r

/-- Model of `ExecutionService.cancel_target` (lines 208-213): look the pid
up, leave the registry untouched, and report whether `kill` was invoked on
the found handle. -/
def cancelTarget (r : List Nat) (pid : Nat) : List Nat × Bool :=
  (r, decide (pid ∈ r))

/-- Model of `ExecutionService.get_running_processes` (lines 215-217): a
copied-out snapshot of the registered pids. -/
def getRunningProcesses (r : List Nat) : List Nat := r

/-- Registry effect of `ExecutionService.run_target` (lines 195-206) once
the shell capability has produced a handle with the given pid: register it
and return the pid. -/
def execRunTarget (r : List Nat) (pid : Nat) : Nat × List Nat :=
  (pid, registerPid r pid)

/-! ## Orchestrator (`ProjectService`, lines 220-273) -/

/-- The session state of `ProjectService`: `_project_root` and `_config`
(lines 235-236), both initially `None`. -/
structure PSState where
  project_root : Option String := none
  config : Option ProjectConfig := none
deriving DecidableEq, Repr

/-- Observable capability invocations of `load_project`: a discovery run
and a configuration save. -/
inductive Ev where
  | discover : Ev
  | save : Ev
deriving DecidableEq, Repr

/-- Result of a `load_project` call: the returned value or the propagated
exception, the session state after the call, the file system after the
call, and the capability invocations in order. -/
structure LPOut where
  result : Except PyErr ProjectConfig
  state : PSState
  fs : FS
  events : List Ev
deriving Repr

/-- Model of `ProjectService.load_project` (lines 238-255): set
`_project_root`, then load the persisted config; if one exists adopt it,
otherwise run discovery once, build a fresh `ProjectConfig` named after the
root's basename, persist it, and adopt it.  Exceptions from loading or
discovery propagate, leaving `_project_root` updated and `_config`
untouched. -/
def load_project (encode : ProjectConfig → String)
    (decode : String → Except PyErr ProjectConfig) (ids : Nat → String)
    (fs : FS) (st : PSState) (project_root : String) : LPOut :=
  let st1 : PSState := { st with project_root := some project_root }
  match load_config decode fs project_root with
  | .error e => ⟨.error e, st1, fs, []⟩
  | .ok (some config) => ⟨.ok config, { st1 with config := some config }, fs, []⟩
  | .ok none =>
    match discover_targets fs ids project_root with
    | .error e => ⟨.error e, st1, fs, [.discover]⟩
    | .ok discovered_targets =>
      let project_name := basename project_root
      let new_config : ProjectConfig :=
        { project_name := project_name, targets := discovered_targets }
      let fs2 := save_config encode fs project_root new_config
      ⟨.ok new_config, { st1 with config := some new_config }, fs2, [.discover, .save]⟩

/-- Python truthiness of `self._project_root : Optional[str]`:
`None` and the empty string are falsy. -/
def truthyRoot : Option String → Bool
  | none => false
  | some s => s != ""

/-- Python truthiness of `self._config : Optional[ProjectConfig]`:
`None` is falsy, a dataclass instance is always truthy. -/
def truthyConfig : Option ProjectConfig → Bool
  | none => false
  | some _ => true

/-- Shell resolution of `ProjectService.run_target` (line 266):
`self._config.shell or ..get_system_shell()` — Python `or` falls through
on a falsy (absent or empty) override. -/
def resolveShell (oshell : Option String) (system_shell : String) : String :=
  match oshell with
  | some s => if s != "" then s else system_shell
  | none => system_shell

/-- Model of `ProjectService.run_target` (lines 257-267): raise
`ValueError` when `_config` or `_project_root` is falsy; look the target up
by id, raising `ValueError` with the offending id when absent; otherwise
resolve the shell, spawn through the shell capability (injected as `spawn`,
yielding the handle's pid), register the pid, and return it with the
updated registry. -/
def ps_run_target (spawn : String → String → String → Nat) (system_shell : String)
    (r : List Nat) (st : PSState) (target_id : String) :
    Except PyErr (Nat × List Nat) :=
  if !(truthyConfig st.config) || !(truthyRoot st.project_root) then
    .error (.valueError "Project not loaded.")
  else
    match st.config, st.project_root with
    | some config, some root =>
      match config.targets.find? (fun t => t.id == target_id) with
      | none => .error (.valueError ("Target with ID '" ++ target_id ++ "' not found."))
      | some target_to_run =>
        let shell := resolveShell config.shell system_shell
        let pid := spawn target_to_run.command root shell
        .ok (execRunTarget r pid)
    | _, _ => .error (.valueError "Project not loaded.")

/-- Model of `ProjectService.get_config` (lines 272-273). -/
def get_config (st : PSState) : Option ProjectConfig := st.config

/-! ## Helper lemmas -/

theorem readFile_ok_exists {fs : FS} {p c : String} (h : readFile fs p = .ok c) :
    fileExists fs p = true := by
  unfold readFile at h
  unfold fileExists
  rcases hl : List.lookup p fs.files with _ | ⟨_ | c'⟩ <;> rw [hl] at h <;>
    first
      | exact Except.noConfusion h
      | rfl

theorem except_ok_bind {ε α β : Type} (a : α) (f : α → Except ε β) :
    (Except.ok a >>= f) = f a := rfl

theorem except_err_bind {ε α β : Type} (e : ε) (f : α → Except ε β) :
    ((Except.error e : Except ε α) >>= f) = Except.error e := rfl

theorem load_config_not_exists {decode : String → Except PyErr ProjectConfig}
    {fs : FS} {root : String}
    (h : fileExists fs (pyPathJoin root CONFIG_FILE_NAME) = false) :
    load_config decode fs root = .ok none := by
  simp [load_config, h]

theorem load_config_read_decode {decode : String → Except PyErr ProjectConfig}
    {fs : FS} {root content : String} {cfg : ProjectConfig}
    (hr : readFile fs (pyPathJoin root CONFIG_FILE_NAME) = .ok content)
    (hd : decode content = .ok cfg) :
    load_config decode fs root = .ok (some cfg) := by
  simp [load_config, readFile_ok_exists hr, hr, hd, except_ok_bind]

theorem load_config_decode_err {decode : String → Except PyErr ProjectConfig}
    {fs : FS} {root content : String} {e : PyErr}
    (hr : readFile fs (pyPathJoin root CONFIG_FILE_NAME) = .ok content)
    (hd : decode content = .error e) :
    load_config decode fs root = .error e := by
  simp [load_config, readFile_ok_exists hr, hr, hd, except_ok_bind, except_err_bind]

theorem load_config_ne_ok_none {decode : String → Except PyErr ProjectConfig}
    {fs : FS} {root : String}
    (h : fileExists fs (pyPathJoin root CONFIG_FILE_NAME) = true) :
    load_config decode fs root ≠ .ok none := by
  simp only [load_config, h, if_true]
  cases hr : readFile fs (pyPathJoin root CONFIG_FILE_NAME) with
  | error e => simp [hr, except_err_bind]
  | ok c =>
    cases hd : decode c with
    | error e => simp [hr, hd, except_ok_bind, except_err_bind]
    | ok cfg => simp [hr, hd, except_ok_bind]

theorem load_project_eq_err {decode : String → Except PyErr ProjectConfig}
    {fs : FS} {root : String} {e : PyErr}
    (h : load_config decode fs root = .error e)
    (encode : ProjectConfig → String) (ids : Nat → String) (st : PSState) :
    load_project encode decode ids fs st root = ⟨.error e, ⟨some root, st.config⟩, fs, []⟩ := by
  simp [load_project, h]

theorem load_project_eq_some {decode : String → Except PyErr ProjectConfig}
    {fs : FS} {root : String} {cfg : ProjectConfig}
    (h : load_config decode fs root = .ok (some cfg))
    (encode : ProjectConfig → String) (ids : Nat → String) (st : PSState) :
    load_project encode decode ids fs st root = ⟨.ok cfg, ⟨some root, some cfg⟩, fs, []⟩ := by
  simp [load_project, h]

theorem load_project_eq_disc_err {decode : String → Except PyErr ProjectConfig}
    {fs : FS} {root : String} {ids : Nat → String} {e : PyErr}
    (h1 : load_config decode fs root = .ok none)
    (h2 : discover_targets fs ids root = .error e)
    (encode : ProjectConfig → String) (st : PSState) :
    load_project encode decode ids fs st root =
      ⟨.error e, ⟨some root, st.config⟩, fs, [.discover]⟩ := by
  simp [load_project, h1, h2]

theorem load_project_eq_disc_ok {decode : String → Except PyErr ProjectConfig}
    {fs : FS} {root : String} {ids : Nat → String} {ts : List Target}
    (h1 : load_config decode fs root = .ok none)
    (h2 : discover_targets fs ids root = .ok ts)
    (encode : ProjectConfig → String) (st : PSState) :
    load_project encode decode ids fs st root =
      ⟨.ok ⟨basename root, ts, [], "1.0", none⟩,
        ⟨some root, some ⟨basename root, ts, [], "1.0", none⟩⟩,
        save_config encode fs root ⟨basename root, ts, [], "1.0", none⟩,
        [.discover, .save]⟩ := by
  simp [load_project, h1, h2]

theorem fileExists_writeFile_self (fs : FS) (p c : String) :
    fileExists (writeFile fs p c) p = true := by
  simp [fileExists, writeFile, List.lookup]

theorem readFile_writeFile_self (fs : FS) (p c : String) :
    readFile (writeFile fs p c) p = .ok c := by
  simp [readFile, writeFile, List.lookup]

theorem foldl_registerPid (pids : List Nat) : ∀ acc : List Nat, pids.Nodup →
    (∀ p ∈ pids, p ∉ acc) → pids.foldl registerPid acc = acc ++ pids := by
  induction pids with
  | nil => intro acc _ _; simp
  | cons p ps ih =>
    intro acc hnd hdis
    rw [List.foldl_cons]
    have hp : p ∉ acc := hdis p (List.mem_cons_self p ps)
    rw [show registerPid acc p = acc ++ [p] from by simp [registerPid, hp]]
    rw [ih (acc ++ [p]) (List.nodup_cons.mp hnd).2 ?_]
    · simp
    · intro q hq
      simp only [List.mem_append, List.mem_singleton]
      rintro (hqa | rfl)
      · exact hdis q (List.mem_cons_of_mem _ hq) hqa
      · exact (List.nodup_cons.mp hnd).1 hq

theorem foldl_onClose_self (l : List Nat) (h : l.Nodup) : l.foldl onClosePid l = [] := by
  induction l with
  | nil => rfl
  | cons p ps ih =>
    rw [List.foldl_cons]
    rw [show onClosePid (p :: ps) p = ps from by
      simp [onClosePid, List.erase_cons_head]]
    exact ih (List.nodup_cons.mp h).2

theorem onClose_not_mem {r : List Nat} (h : r.Nodup) (p : Nat) : p ∉ onClosePid r p := by
  unfold onClosePid
  by_cases hp : p ∈ r
  · rw [if_pos hp]
    intro hmem
    exact ((h.mem_erase_iff).mp hmem).1 rfl
  · rw [if_neg hp]; exact hp

theorem onClose_idem {r : List Nat} (h : r.Nodup) (p : Nat) :
    onClosePid (onClosePid r p) p = onClosePid r p := by
  have hnm := onClose_not_mem h p
  conv_lhs => rw [onClosePid]
  rw [if_neg hnm]

theorem materialize_map_key (ids : Nat → String) (pres : List PreTarget) : ∀ (k : Nat),
    (materialize ids k pres).map targetKey = pres.map preKey := by
  induction pres with
  | nil => intro k; rfl
  | cons p ps ih => intro k; simp [materialize, targetKey, preKey, ih]

/-! ## Claim theorems -/

/-- C3: registry consistency of the execution tracker — after a sequence of
`run_target` registrations with pairwise-distinct pids the registry holds
exactly those pids; the installed close-callback removes its pid and is
idempotent (firing again, or for an unregistered pid, is a no-op); after
every close-callback has fired the registry is empty. -/
theorem c3_registry_consistency (pids : List Nat) (hnd : pids.Nodup) :
    getRunningProcesses (pids.foldl (fun r pid => (execRunTarget r pid).2) []) = pids ∧
    (∀ (r : List Nat) (p : Nat), r.Nodup →
      p ∉ onClosePid r p ∧ onClosePid (onClosePid r p) p = onClosePid r p) ∧
    pids.foldl onClosePid (pids.foldl (fun r pid => (execRunTarget r pid).2) []) = [] := by
  have hfun : (fun r pid => (execRunTarget r pid).2) = registerPid := rfl
  rw [hfun]
  have hreg : pids.foldl registerPid [] = pids := by
    simpa using foldl_registerPid pids [] hnd (by simp)
  refine ⟨hreg, ?_, ?_⟩
  · intro r p hr
    exact ⟨onClose_not_mem hr p, onClose_idem hr p⟩
  · rw [hreg]
    exact foldl_onClose_self pids hnd

/-- Witness for C3 at the concrete pid sequence `[2, 3, 5]`. -/
theorem c3_registry_consistency_witness :
    getRunningProcesses (([2, 3, 5] : List Nat).foldl (fun r pid => (execRunTarget r pid).2) [])
      = [2, 3, 5] ∧
    ([2, 3, 5] : List Nat).foldl onClosePid
      (([2, 3, 5] : List Nat).foldl (fun r pid => (execRunTarget r pid).2) []) = [] :=
  ⟨(c3_registry_consistency [2, 3, 5] (by decide)).1,
   (c3_registry_consistency [2, 3, 5] (by decide)).2.2⟩

/-- C5: discovery is deterministic and idempotent — two runs of
`discover_targets` against the same storage state agree on success or
failure and, on success, produce target lists that are equal in name,
command and source file (pointwise, hence of equal length), whatever the
two generated-id supplies are. -/
theorem c5_discovery_idempotent (fs : FS) (root : String) (ids1 ids2 : Nat → String) :
    (discover_targets fs ids1 root).map (fun l => l.map targetKey) =
      (discover_targets fs ids2 root).map (fun l => l.map targetKey) := by
  unfold discover_targets
  cases h : discoverPre fs root with
  | error e => rfl
  | ok pres => simp [Except.map, materialize_map_key]

/-- C8: `cancel_target` never mutates the registry — for an unregistered
pid it is a silent no-op, and for a registered pid it invokes `kill` on the
handle while still leaving the registry unchanged; `kill` is invoked
exactly when the pid is registered. -/
theorem c8_cancel_preserves_registry (r : List Nat) (p : Nat) :
    (cancelTarget r p).1 = r ∧ ((cancelTarget r p).2 = true ↔ p ∈ r) :=
  ⟨rfl, by simp [cancelTarget]⟩

/-- Witness for C8 at an absent pid and at a registered pid. -/
theorem c8_cancel_preserves_registry_witness :
    ((cancelTarget [1, 2] 5).1 = [1, 2] ∧ ((cancelTarget [1, 2] 5).2 = true ↔ 5 ∈ [1, 2])) ∧
    ((cancelTarget [1, 2] 1).1 = [1, 2] ∧ ((cancelTarget [1, 2] 1).2 = true ↔ 1 ∈ [1, 2])) :=
  ⟨c8_cancel_preserves_registry [1, 2] 5, c8_cancel_preserves_registry [1, 2] 1⟩

/-- C10: `load_project` updates `project_root` before attempting the load,
so when loading raises, the session keeps the new root while `get_config`
still returns the previously loaded configuration (or `none`): the two
session fields are not updated atomically on error. -/
theorem c10_root_updated_before_load (encode : ProjectConfig → String)
    (decode : String → Except PyErr ProjectConfig) (ids : Nat → String)
    (fs : FS) (st : PSState) (root : String) (e : PyErr)
    (h : load_config decode fs root = .error e) :
    (load_project encode decode ids fs st root).result = .error e ∧
    (load_project encode decode ids fs st root).state.project_root = some root ∧
    get_config (load_project encode decode ids fs st root).state = st.config := by
  rw [load_project_eq_err h encode ids st]
  exact ⟨rfl, rfl, rfl⟩

/-- Witness for C10: a failing decode on an existing config file leaves the
new root with the old session config. -/
theorem c10_root_updated_before_load_witness :
    (load_project (fun _ => "enc") (fun _ => .error (.typeError "bad")) (fun _ => "id")
      ⟨[("/r/.project-dashboard.yml", some "junk")]⟩
      ⟨some "/old", some ⟨"old", [], [], "1.0", none⟩⟩ "/r").result =
        .error (.typeError "bad") ∧
    (load_project (fun _ => "enc") (fun _ => .error (.typeError "bad")) (fun _ => "id")
      ⟨[("/r/.project-dashboard.yml", some "junk")]⟩
      ⟨some "/old", some ⟨"old", [], [], "1.0", none⟩⟩ "/r").state.project_root =
        some "/r" ∧
    get_config (load_project (fun _ => "enc") (fun _ => .error (.typeError "bad"))
      (fun _ => "id") ⟨[("/r/.project-dashboard.yml", some "junk")]⟩
      ⟨some "/old", some ⟨"old", [], [], "1.0", none⟩⟩ "/r").state =
        some ⟨"old", [], [], "1.0", none⟩ :=
  c10_root_updated_before_load (fun _ => "enc") (fun _ => .error (.typeError "bad"))
    (fun _ => "id") ⟨[("/r/.project-dashboard.yml", some "junk")]⟩
    ⟨some "/old", some ⟨"old", [], [], "1.0", none⟩⟩ "/r" (.typeError "bad") rfl

/-- C9: `load_config` returns `None` exactly when the configuration file is
absent; when the file exists but decoding its contents fails, the error
propagates out of `load_project` with no discovery fallback, no write, and
the session config unchanged. -/
theorem c9_malformed_config_propagates (decode : String → Except PyErr ProjectConfig)
    (fs : FS) (root : String) :
    (load_config decode fs root = .ok none ↔
      fileExists fs (pyPathJoin root CONFIG_FILE_NAME) = false) ∧
    (∀ (content : String) (e : PyErr),
      readFile fs (pyPathJoin root CONFIG_FILE_NAME) = .ok content →
      decode content = .error e → load_config decode fs root = .error e) ∧
    (∀ (encode : ProjectConfig → String) (ids : Nat → String) (st : PSState) (e : PyErr),
      load_config decode fs root = .error e →
      (load_project encode decode ids fs st root).result = .error e ∧
      (load_project encode decode ids fs st root).events = [] ∧
      (load_project encode decode ids fs st root).fs = fs ∧
      (load_project encode decode ids fs st root).state.config = st.config) := by
  refine ⟨?_, ?_, ?_⟩
  · constructor
    · intro hnone
      cases hex : fileExists fs (pyPathJoin root CONFIG_FILE_NAME) with
      | false => rfl
      | true => exact absurd hnone (load_config_ne_ok_none hex)
    · intro hex
      exact load_config_not_exists hex
  · intro content e hr hd
    exact load_config_decode_err hr hd
  · intro encode ids st e h
    rw [load_project_eq_err h encode ids st]
    exact ⟨rfl, rfl, rfl, rfl⟩

/-- Witness for C9: a config file with undecodable contents makes
`load_config` raise and `load_project` propagate without discovering or
writing. -/
theorem c9_malformed_config_propagates_witness :
    load_config (fun _ => .error (.typeError "bad"))
      ⟨[("/r/.project-dashboard.yml", some "junk")]⟩ "/r" = .error (.typeError "bad") ∧
    (load_project (fun _ => "enc") (fun _ => .error (.typeError "bad")) (fun _ => "id")
      ⟨[("/r/.project-dashboard.yml", some "junk")]⟩ ⟨none, none⟩ "/r").events = [] ∧
    (load_project (fun _ => "enc") (fun _ => .error (.typeError "bad")) (fun _ => "id")
      ⟨[("/r/.project-dashboard.yml", some "junk")]⟩ ⟨none, none⟩ "/r").fs =
      ⟨[("/r/.project-dashboard.yml", some "junk")]⟩ := by
  have h := c9_malformed_config_propagates (fun _ => .error (.typeError "bad"))
    ⟨[("/r/.project-dashboard.yml", some "junk")]⟩ "/r"
  have hl : load_config (fun _ => .error (.typeError "bad"))
      ⟨[("/r/.project-dashboard.yml", some "junk")]⟩ "/r" = .error (.typeError "bad") :=
    h.2.1 "junk" (.typeError "bad") rfl rfl
  have hp := h.2.2 (fun _ => "enc") (fun _ => "id") ⟨none, none⟩ (.typeError "bad") hl
  exact ⟨hl, hp.2.1, hp.2.2.1⟩

/-- C2: per `load_project` call exactly one of the two branches executes —
with an existing configuration file the file is decoded and adopted with no
discovery and no write; without one, discovery runs exactly once and the
fresh configuration (named after the root's basename, holding the
discovered targets) is persisted via `save_config` before being returned
and adopted. -/
theorem c2_load_or_discover (encode : ProjectConfig → String)
    (decode : String → Except PyErr ProjectConfig) (ids : Nat → String)
    (fs : FS) (st : PSState) (root : String) :
    (fileExists fs (pyPathJoin root CONFIG_FILE_NAME) = true →
      (load_project encode decode ids fs st root).events = [] ∧
      (load_project encode decode ids fs st root).fs = fs ∧
      (∀ (content : String) (cfg : ProjectConfig),
        readFile fs (pyPathJoin root CONFIG_FILE_NAME) = .ok content →
        decode content = .ok cfg →
        (load_project encode decode ids fs st root).result = .ok cfg ∧
        (load_project encode decode ids fs st root).state.config = some cfg)) ∧
    (fileExists fs (pyPathJoin root CONFIG_FILE_NAME) = false →
      (∀ e : PyErr, discover_targets fs ids root = .error e →
        (load_project encode decode ids fs st root).events = [Ev.discover] ∧
        (load_project encode decode ids fs st root).fs = fs) ∧
      (∀ ts : List Target, discover_targets fs ids root = .ok ts →
        (load_project encode decode ids fs st root).events = [Ev.discover, Ev.save] ∧
        (load_project encode decode ids fs st root).result =
          .ok ⟨basename root, ts, [], "1.0", none⟩ ∧
        (load_project encode decode ids fs st root).state.config =
          some ⟨basename root, ts, [], "1.0", none⟩ ∧
        (load_project encode decode ids fs st root).fs =
          save_config encode fs root ⟨basename root, ts, [], "1.0", none⟩ ∧
        fileExists (load_project encode decode ids fs st root).fs
          (pyPathJoin root CONFIG_FILE_NAME) = true)) := by
  constructor
  · intro hex
    cases hlc : load_config decode fs root with
    | error e =>
      rw [load_project_eq_err hlc encode ids st]
      refine ⟨rfl, rfl, ?_⟩
      intro content cfg hr hd
      rw [load_config_read_decode hr hd] at hlc
      exact Except.noConfusion hlc
    | ok o =>
      cases o with
      | none => exact absurd hlc (load_config_ne_ok_none hex)
      | some cfg0 =>
        rw [load_project_eq_some hlc encode ids st]
        refine ⟨rfl, rfl, ?_⟩
        intro content cfg hr hd
        have heq : load_config decode fs root = .ok (some cfg) :=
          load_config_read_decode hr hd
        rw [hlc] at heq
        cases heq
        exact ⟨rfl, rfl⟩
  · intro hex
    have hlc : load_config decode fs root = .ok none := load_config_not_exists hex
    constructor
    · intro e hde
      rw [load_project_eq_disc_err hlc hde encode st]
      exact ⟨rfl, rfl⟩
    · intro ts hdo
      rw [load_project_eq_disc_ok hlc hdo encode st]
      refine ⟨rfl, rfl, rfl, rfl, ?_⟩
      exact fileExists_writeFile_self fs (pyPathJoin root CONFIG_FILE_NAME) _

/-- Witness for C2: the load branch on a concrete root with an existing
configuration file adopts the decoded configuration with no discovery, and
the discovery branch on a root without one discovers and saves. -/
theorem c2_load_or_discover_witness :
    ((load_project (fun _ => "enc") (fun _ => .ok ⟨"w", [], [], "1.0", none⟩) (fun _ => "id")
      ⟨[("/w/.project-dashboard.yml", some "cfg")]⟩ ⟨none, none⟩ "/w").events = [] ∧
     (load_project (fun _ => "enc") (fun _ => .ok ⟨"w", [], [], "1.0", none⟩) (fun _ => "id")
      ⟨[("/w/.project-dashboard.yml", some "cfg")]⟩ ⟨none, none⟩ "/w").result =
        .ok ⟨"w", [], [], "1.0", none⟩) ∧
    (load_project (fun _ => "enc") (fun _ => .ok ⟨"w", [], [], "1.0", none⟩) (fun _ => "id")
      ⟨[]⟩ ⟨none, none⟩ "/w").events = [Ev.discover, Ev.save] := by
  have h1 := (c2_load_or_discover (fun _ => "enc")
    (fun _ => .ok ⟨"w", [], [], "1.0", none⟩) (fun _ => "id")
    ⟨[("/w/.project-dashboard.yml", some "cfg")]⟩ ⟨none, none⟩ "/w").1 rfl
  have h2 := ((c2_load_or_discover (fun _ => "enc")
    (fun _ => .ok ⟨"w", [], [], "1.0", none⟩) (fun _ => "id")
    ⟨[]⟩ ⟨none, none⟩ "/w").2 rfl).2 [] rfl
  exact ⟨⟨h1.1, (h1.2.2 "cfg" ⟨"w", [], [], "1.0", none⟩ rfl rfl).1⟩, h2.1⟩

/-! ## Makefile-scan lemmas (for C4) -/

theorem pyWs_not_identChar {c : Char} (h : pyWs c = true) : identChar c = false := by
  simp only [pyWs, Bool.or_eq_true, decide_eq_true_eq] at h
  rcases h with ((((rfl | rfl) | rfl) | rfl) | rfl) | rfl <;> decide

theorem takeWhile_all_append {p : Char → Bool} {l1 : List Char} (l2 : List Char)
    (h : ∀ c ∈ l1, p c = true) : (l1 ++ l2).takeWhile p = l1 ++ l2.takeWhile p := by
  induction l1 with
  | nil => simp
  | cons a t ih =>
    rw [List.cons_append, List.takeWhile_cons, if_pos (h a (List.mem_cons_self a t)),
      ih (fun c hc => h c (List.mem_cons_of_mem a hc))]
    rfl

theorem dropWhile_all_append {p : Char → Bool} {l1 : List Char} (l2 : List Char)
    (h : ∀ c ∈ l1, p c = true) : (l1 ++ l2).dropWhile p = l2.dropWhile p := by
  induction l1 with
  | nil => simp
  | cons a t ih =>
    rw [List.cons_append, List.dropWhile_cons, if_pos (h a (List.mem_cons_self a t)),
      ih (fun c hc => h c (List.mem_cons_of_mem a hc))]

/-- The regex attempt succeeds on an identifier run followed by a
whitespace run and a colon, capturing exactly the identifier. -/
theorem tryMatch_full {name ws rest : List Char} (hn : name ≠ [])
    (hni : ∀ c ∈ name, identChar c = true) (hw : ∀ c ∈ ws, pyWs c = true) :
    tryMatch (name ++ (ws ++ ':' :: rest)) = some (name, rest) := by
  have htw : (name ++ (ws ++ ':' :: rest)).takeWhile identChar = name := by
    rw [takeWhile_all_append _ hni]
    have hz : (ws ++ ':' :: rest).takeWhile identChar = [] := by
      cases ws with
      | nil => rw [List.nil_append, List.takeWhile_cons, if_neg (by decide)]
      | cons w t =>
        rw [List.cons_append, List.takeWhile_cons,
          if_neg (by simp [pyWs_not_identChar (hw w (List.mem_cons_self w t))])]
    rw [hz, List.append_nil]
  have hdw : (name ++ (ws ++ ':' :: rest)).dropWhile identChar = ws ++ ':' :: rest := by
    rw [dropWhile_all_append _ hni]
    cases ws with
    | nil => rw [List.nil_append, List.dropWhile_cons, if_neg (by decide)]
    | cons w t =>
      rw [List.cons_append, List.dropWhile_cons,
        if_neg (by simp [pyWs_not_identChar (hw w (List.mem_cons_self w t))])]
  have hdw2 : (ws ++ ':' :: rest).dropWhile pyWs = ':' :: rest := by
    rw [dropWhile_all_append _ hw, List.dropWhile_cons, if_neg (by decide)]
  have hne : name.isEmpty = false := by
    cases name with
    | nil => exact absurd rfl hn
    | cons a t => rfl
  unfold tryMatch
  rw [htw, hdw, hdw2, hne]
  exact rfl

/-- Unfolding equation of `scanM` at a line start. -/
theorem scanM_succ_cons (fuel : Nat) (c : Char) (cs : List Char) :
    scanM (fuel + 1) (c :: cs) true =
      match tryMatch (c :: cs) with
      | some (nm, r) =>
        if isDirective nm then scanM fuel r false else nm :: scanM fuel r false
      | none => scanM fuel cs (c = '\n') := rfl

/-- Unfolding equation of `scanM` away from a line start. -/
theorem scanM_succ_cons_false (fuel : Nat) (c : Char) (cs : List Char) :
    scanM (fuel + 1) (c :: cs) false = scanM fuel cs (c = '\n') := rfl

/-- Soundness of the scan: every recorded identifier is a non-empty run of
identifier characters (so in particular it never begins with a dot). -/
theorem scanM_names : ∀ (fuel : Nat) (content : List Char) (flag : Bool) (n : List Char),
    n ∈ scanM fuel content flag → n ≠ [] ∧ ∀ c ∈ n, identChar c = true := by
  intro fuel
  induction fuel with
  | zero =>
    intro content flag n h
    exact absurd h (by simp [scanM])
  | succ fuel ih =>
    intro content flag n h
    cases content with
    | nil => exact absurd h (by simp [scanM])
    | cons c cs =>
      cases flag with
      | false =>
        rw [scanM_succ_cons_false] at h
        exact ih cs _ n h
      | true =>
        rw [scanM_succ_cons] at h
        cases hm : tryMatch (c :: cs) with
        | none =>
          rw [hm] at h
          exact ih cs _ n h
        | some pr =>
          obtain ⟨m, r⟩ := pr
          rw [hm] at h
          change n ∈ (if isDirective m then scanM fuel r false
            else m :: scanM fuel r false) at h
          obtain ⟨hmeq, hmne, w, hwall, hs⟩ := tryMatch_shape hm
          by_cases hd : isDirective m = true
          · rw [if_pos hd] at h
            exact ih r false n h
          · rw [if_neg hd] at h
            rcases List.mem_cons.mp h with rfl | hmem
            · refine ⟨hmne, ?_⟩
              intro ch hch
              rw [hmeq] at hch
              exact List.mem_takeWhile_imp hch
            · exact ih r false n hmem

/-- Completeness of the scan: whenever the input splits at a line start
(position 0 with the flag set, or right after a newline) into a non-empty
identifier run, a whitespace run and a colon, the identifier is recorded. -/
theorem scanM_complete : ∀ (fuel : Nat) (u name ws rest : List Char) (flag : Bool),
    (u ++ (name ++ (ws ++ ':' :: rest))).length < fuel →
    (u = [] → flag = true) →
    (u ≠ [] → u.getLast? = some '\n') →
    name ≠ [] → (∀ c ∈ name, identChar c = true) → (∀ c ∈ ws, pyWs c = true) →
    name ∈ scanM fuel (u ++ (name ++ (ws ++ ':' :: rest))) flag := by
  intro fuel
  induction fuel with
  | zero =>
    intro u name ws rest flag hlen h0 hl hn hni hw
    exact absurd hlen (Nat.not_lt_zero _)
  | succ fuel ih =>
    intro u name ws rest flag hlen h0 hl hn hni hw
    cases u with
    | nil =>
      have hf := h0 rfl
      subst hf
      rw [List.nil_append]
      obtain ⟨a, t, rfl⟩ : ∃ a t, name = a :: t := by
        cases name with
        | nil => exact absurd rfl hn
        | cons a t => exact ⟨a, t, rfl⟩
      have e1 : (a :: t) ++ (ws ++ ':' :: rest) = a :: (t ++ (ws ++ ':' :: rest)) := rfl
      rw [e1, scanM_succ_cons, ← e1, tryMatch_full hn hni hw]
      change (a :: t) ∈ (if isDirective (a :: t) then scanM fuel rest false
        else (a :: t) :: scanM fuel rest false)
      have ha : a ≠ '.' := by
        intro hEq
        have := hni a (List.mem_cons_self a t)
        rw [hEq] at this
        exact absurd this (by decide)
      have hdir : isDirective (a :: t) = false := by
        simp [isDirective, ha]
      rw [hdir]
      simp
    | cons c u' =>
      have hlast : (c :: u').getLast? = some '\n' := hl (by simp)
      have step_skip : name ∈ scanM fuel (u' ++ (name ++ (ws ++ ':' :: rest)))
          (decide (c = '\n')) := by
        apply ih u' name ws rest _ ?_ ?_ ?_ hn hni hw
        · simp only [List.length_cons, List.length_append] at hlen ⊢
          omega
        · intro hu'
          subst hu'
          have hc : some c = some '\n' := hlast
          rw [Option.some.inj hc]
          simp
        · intro hu'
          cases u' with
          | nil => exact absurd rfl hu'
          | cons x xs =>
            rw [List.getLast?_cons_cons] at hlast
            exact hlast
      cases flag with
      | false =>
        have e1 : (c :: u') ++ (name ++ (ws ++ ':' :: rest))
            = c :: (u' ++ (name ++ (ws ++ ':' :: rest))) := rfl
        rw [e1, scanM_succ_cons_false]
        exact step_skip
      | true =>
        have e1 : (c :: u') ++ (name ++ (ws ++ ':' :: rest))
            = c :: (u' ++ (name ++ (ws ++ ':' :: rest))) := rfl
        rw [e1, scanM_succ_cons, ← e1]
        cases hm : tryMatch ((c :: u') ++ (name ++ (ws ++ ':' :: rest))) with
        | none => exact step_skip
        | some pr =>
          obtain ⟨m, r⟩ := pr
          change name ∈ (if isDirective m then scanM fuel r false
            else m :: scanM fuel r false)
          obtain ⟨hmeq, hmne, w', hw', hs⟩ := tryMatch_shape hm
          -- the match cannot reach past the newline that ends `u`:
          -- `u` is longer than the whole match `m ++ w' ++ [':']`.
          have hlong : (m ++ w').length < (c :: u').length := by
            by_contra hle
            push_neg at hle
            have hpre : c :: u' = (m ++ w').take (c :: u').length := by
              have h1 : (c :: u') ++ (name ++ (ws ++ ':' :: rest))
                  = (m ++ w') ++ (':' :: r) := by
                rw [hs, List.append_assoc]
              calc c :: u'
                  = ((c :: u') ++ (name ++ (ws ++ ':' :: rest))).take (c :: u').length :=
                    (List.take_left _ _).symm
                _ = ((m ++ w') ++ (':' :: r)).take (c :: u').length := by rw [h1]
                _ = (m ++ w').take (c :: u').length := by
                    rw [List.take_append_eq_append_take,
                      show (c :: u').length - (m ++ w').length = 0 from by
                        simp only [List.length_append]
                        simp only [List.length_append] at hle
                        omega,
                      List.take_zero, List.append_nil]
            rcases Nat.le_total (c :: u').length m.length with hum | hum
            · -- the whole of `u` sits inside the identifier run: impossible,
              -- `u` ends with a newline and newline is no identifier character.
              have hpre2 : c :: u' = m.take (c :: u').length := by
                conv_lhs => rw [hpre]
                rw [List.take_append_eq_append_take,
                  show (c :: u').length - m.length = 0 from by omega,
                  List.take_zero, List.append_nil]
              have hnl : '\n' ∈ m.take (c :: u').length := by
                rw [← hpre2]
                exact List.mem_of_mem_getLast? hlast
              have hid : identChar '\n' = true := by
                rw [hmeq] at hnl
                exact List.mem_takeWhile_imp
                  (List.Sublist.mem hnl (List.take_sublist _ _))
              exact absurd hid (by decide)
            · -- `u` ends inside the whitespace run: then the character after
              -- `u` (the head of `name`) would be whitespace or the colon.
              have hsplit : m ++ w' = (c :: u') ++ (m ++ w').drop (c :: u').length := by
                conv_lhs => rw [← List.take_append_drop (c :: u').length (m ++ w')]
                rw [← hpre]
              have hT : name ++ (ws ++ ':' :: rest)
                  = (m ++ w').drop (c :: u').length ++ ':' :: r := by
                have hboth : (c :: u') ++ (name ++ (ws ++ ':' :: rest))
                    = (c :: u') ++ ((m ++ w').drop (c :: u').length ++ ':' :: r) := by
                  calc (c :: u') ++ (name ++ (ws ++ ':' :: rest))
                      = m ++ (w' ++ (':' :: r)) := hs
                    _ = (m ++ w') ++ (':' :: r) := by rw [List.append_assoc]
                    _ = ((c :: u') ++ (m ++ w').drop (c :: u').length) ++ (':' :: r) := by
                        rw [← hsplit]
                    _ = (c :: u') ++ ((m ++ w').drop (c :: u').length ++ ':' :: r) := by
                        rw [List.append_assoc]
                exact List.append_cancel_left hboth
              have hzw : (m ++ w').drop (c :: u').length
                  = w'.drop ((c :: u').length - m.length) := by
                rw [List.drop_append_eq_append_drop, List.drop_eq_nil_of_le hum,
                  List.nil_append]
              obtain ⟨a, t, rfl⟩ : ∃ a t, name = a :: t := by
                cases name with
                | nil => exact absurd rfl hn
                | cons a t => exact ⟨a, t, rfl⟩
              have ha := hni a (List.mem_cons_self a t)
              cases hz : (m ++ w').drop (c :: u').length with
              | nil =>
                rw [hz, List.nil_append, List.cons_append] at hT
                have hac : a = ':' := (List.cons.inj hT).1
                rw [hac] at ha
                exact absurd ha (by decide)
              | cons b z' =>
                rw [hz] at hT
                simp only [List.cons_append] at hT
                have hab : a = b := (List.cons.inj hT).1
                have hbw : b ∈ w' := by
                  have hbz : b ∈ (m ++ w').drop (c :: u').length := by
                    rw [hz]; exact List.mem_cons_self b z'
                  rw [hzw] at hbz
                  exact List.Sublist.mem hbz (List.drop_sublist _ _)
                have hni2 := pyWs_not_identChar (hw' b hbw)
                rw [← hab] at hni2
                rw [hni2] at ha
                exact Bool.noConfusion ha
          -- split `u` around the match: `u = (m ++ (w' ++ [':'])) ++ u₂`.
          have h1 : (c :: u') ++ (name ++ (ws ++ ':' :: rest))
              = (m ++ (w' ++ [':'])) ++ r := by
            rw [hs]
            simp [List.append_assoc]
          have hn0 : (m ++ (w' ++ [':'])).length ≤ (c :: u').length := by
            simp only [List.length_append, List.length_cons, List.length_nil]
            simp only [List.length_append, List.length_cons, List.length_nil] at hlong
            omega
          have ht1 : (c :: u').take (m ++ (w' ++ [':'])).length = m ++ (w' ++ [':']) := by
            have h2 := congrArg (List.take (m ++ (w' ++ [':'])).length) h1
            rw [List.take_append_eq_append_take,
              show (m ++ (w' ++ [':'])).length - (c :: u').length = 0 from by omega,
              List.take_zero, List.append_nil, List.take_left] at h2
            rw [h2]
          obtain ⟨u₂, hu₂⟩ : ∃ u₂, c :: u' = (m ++ (w' ++ [':'])) ++ u₂ := by
            refine ⟨(c :: u').drop (m ++ (w' ++ [':'])).length, ?_⟩
            conv_lhs => rw [← List.take_append_drop (m ++ (w' ++ [':'])).length (c :: u')]
            rw [ht1]
          have hu₂ne : u₂ ≠ [] := by
            intro hnil
            rw [hnil, List.append_nil] at hu₂
            have hcolon : (c :: u').getLast? = some ':' := by
              rw [hu₂, show m ++ (w' ++ [':']) = (m ++ w') ++ [':'] from by
                rw [List.append_assoc], List.getLast?_concat]
            rw [hlast] at hcolon
            exact absurd (Option.some.inj hcolon) (by decide)
          have hu₂last : u₂.getLast? = some '\n' := by
            have hcat := hlast
            rw [hu₂, List.getLast?_append_of_ne_nil _ hu₂ne] at hcat
            exact hcat
          have hr_eq : r = u₂ ++ (name ++ (ws ++ ':' :: rest)) := by
            have hboth : (m ++ (w' ++ [':'])) ++ r
                = (m ++ (w' ++ [':'])) ++ (u₂ ++ (name ++ (ws ++ ':' :: rest))) := by
              calc (m ++ (w' ++ [':'])) ++ r
                  = (c :: u') ++ (name ++ (ws ++ ':' :: rest)) := h1.symm
                _ = ((m ++ (w' ++ [':'])) ++ u₂) ++ (name ++ (ws ++ ':' :: rest)) := by
                    rw [← hu₂]
                _ = (m ++ (w' ++ [':'])) ++ (u₂ ++ (name ++ (ws ++ ':' :: rest))) := by
                    rw [List.append_assoc]
            exact List.append_cancel_left hboth
          have hmem : name ∈ scanM fuel r false := by
            rw [hr_eq]
            apply ih u₂ name ws rest false ?_ (fun h => absurd h hu₂ne) (fun _ => hu₂last)
              hn hni hw
            have hlen2 := congrArg List.length hu₂
            simp only [List.length_cons, List.length_append, List.length_nil] at hlen2
            simp only [List.length_cons, List.length_append, List.length_nil] at hlen
            simp only [List.length_append, List.length_cons, List.length_nil]
            omega
          by_cases hd : isDirective m = true
          · rw [if_pos hd]
            exact hmem
          · rw [if_neg hd]
            exact List.mem_cons_of_mem _ hmem

/-- C4: the build-rule scan records, for every line starting with a
non-empty identifier of alphanumerics, underscore or hyphen followed by
(whitespace and) a colon, one target named after the identifier with
command `make <identifier>`; no recorded identifier ever begins with a dot,
so every dot-prefixed pseudo-target header is excluded; in particular a
file with an upper-case dot-prefixed directive line followed by a real rule
header yields exactly the real rule's name. -/
theorem c4_makefile_rule_scan :
    (∀ (u name ws rest : List Char) (flag : Bool),
      (u = [] → flag = true) →
      (u ≠ [] → u.getLast? = some '\n') →
      name ≠ [] → (∀ c ∈ name, identChar c = true) → (∀ c ∈ ws, pyWs c = true) →
      name ∈ scanM ((u ++ (name ++ (ws ++ ':' :: rest))).length + 1)
        (u ++ (name ++ (ws ++ ':' :: rest))) flag) ∧
    (∀ (fuel : Nat) (content : List Char) (flag : Bool) (n : List Char),
      n ∈ scanM fuel content flag → n.head? ≠ some '.') ∧
    (scanM ((".PHONY: all\nall: build").data.length + 1)
      (".PHONY: all\nall: build").data true = [['a', 'l', 'l']]) ∧
    (∀ (fs : FS) (f content : String), readFile fs f = .ok content →
      perFileMakefile fs f = (scanM (content.data.length + 1) content.data true).map
        (fun n => ⟨String.mk n, "make " ++ String.mk n, f⟩)) := by
  refine ⟨?_, ?_, ?_, ?_⟩
  · intro u name ws rest flag h0 hl hn hni hw
    exact scanM_complete _ u name ws rest flag (Nat.lt_succ_self _) h0 hl hn hni hw
  · intro fuel content flag n h
    obtain ⟨hne, hall⟩ := scanM_names fuel content flag n h
    cases n with
    | nil => simp
    | cons a t =>
      rw [List.head?_cons]
      intro heq
      have ha : a = '.' := Option.some.inj heq
      have := hall a (List.mem_cons_self a t)
      rw [ha] at this
      exact absurd this (by decide)
  · rfl
  · intro fs f content hr
    unfold perFileMakefile
    rw [hr]

/-- Witness for C4 at the concrete two-line build file: the directive line
is excluded and the rule header `all:` is recorded. -/
theorem c4_makefile_rule_scan_witness :
    ['a', 'l', 'l'] ∈ scanM ((".PHONY: all\nall: build").data.length + 1)
      (".PHONY: all\nall: build").data true :=
  c4_makefile_rule_scan.1 (".PHONY: all\n").data ['a', 'l', 'l'] []
    (" build").data true (fun h => absurd h (by decide)) (fun _ => rfl)
    (by decide) (by decide) (by decide)

/-- A project with a manifest whose `scripts` section is a string, not a
name-to-command mapping. -/
def fsC1 : FS := ⟨[("/p/package.json", some "\x7b\"scripts\": \"echo hi\"\x7d")]⟩

/-- C1: the package-manifest scan is not exception-safe — a manifest whose
parsed structure is not an object, or whose `scripts` section is not a
mapping, raises `AttributeError` out of `discover_targets` (the
`except (json.JSONDecodeError, KeyError)` clause does not catch it), while
a manifest that fails to deserialize is skipped and the other well-formed
sources still contribute their targets. -/
theorem c1_nonmapping_scripts_raises :
    discover_targets fsC1 (fun _ => "id") "/p" = .error (.attributeError "items") ∧
    discoverPre ⟨[("/p/package.json", some "[1, 2]")]⟩ "/p" =
      .error (.attributeError "get") ∧
    discoverPre ⟨[("/p/package.json", some "not json"),
      ("/p/sub/package.json", some "\x7b\"scripts\": \x7b\"start\": \"node index.js\"\x7d\x7d")]⟩
      "/p" = .ok [⟨"start", "npm run start", "/p/sub/package.json"⟩] :=
  ⟨rfl, rfl, rfl⟩

/-- The C6 scenario: a project root containing only a `package.json` with
two scripts and no persisted configuration. -/
def fsC6 : FS :=
  ⟨[("/proj/package.json",
     some "\x7b\"scripts\": \x7b\"start\": \"node index.js\", \"test\": \"jest\"\x7d\x7d")]⟩

/-- The configuration the C6 scenario produces, for a given id supply. -/
def c6Config (ids : Nat → String) : ProjectConfig :=
  ⟨"proj",
   [⟨"start", "npm run start", "/proj/package.json", ids 0, none, none⟩,
    ⟨"test", "npm run test", "/proj/package.json", ids 1, none, none⟩],
   [], "1.0", none⟩

/-- C6: the package-script scan turns each entry of a manifest's `scripts`
mapping into a target named after the script key with command
`npm run <name>` and the manifest path as source file; concretely, a root
holding `package.json` with scripts `start` and `test` and no persisted
configuration makes `load_project` return a two-target configuration with
those names and commands, and the configuration file then exists on disk
holding that configuration encoded. -/
theorem c6_package_scan :
    (∀ (path content : String) (kvs skvs : List (String × Json)),
      jsonLoads content = .ok (.obj kvs) →
      lookupLast kvs "scripts" = some (.obj skvs) →
      packageFileRaw path content =
        .ok ((pyDictItems skvs).map (fun p => ⟨p.1, "npm run " ++ p.1, path⟩))) ∧
    (∀ (encode : ProjectConfig → String) (decode : String → Except PyErr ProjectConfig)
      (ids : Nat → String),
      fileExists fsC6 (pyPathJoin "/proj" CONFIG_FILE_NAME) = false ∧
      (load_project encode decode ids fsC6 ⟨none, none⟩ "/proj").result =
        .ok (c6Config ids) ∧
      (c6Config ids).targets.map (fun t => t.name) = ["start", "test"] ∧
      (c6Config ids).targets.map (fun t => t.command) = ["npm run start", "npm run test"] ∧
      (c6Config ids).targets.map (fun t => t.source_file) =
        ["/proj/package.json", "/proj/package.json"] ∧
      (c6Config ids).targets.length = 2 ∧
      fileExists (load_project encode decode ids fsC6 ⟨none, none⟩ "/proj").fs
        (pyPathJoin "/proj" CONFIG_FILE_NAME) = true ∧
      readFile (load_project encode decode ids fsC6 ⟨none, none⟩ "/proj").fs
        (pyPathJoin "/proj" CONFIG_FILE_NAME) = .ok (encode (c6Config ids))) := by
  constructor
  · intro path content kvs skvs h1 h2
    simp [packageFileRaw, h1, except_ok_bind, pyGet, h2, pyItems]
  · intro encode decode ids
    exact ⟨rfl, rfl, rfl, rfl, rfl, rfl, rfl, rfl⟩

/-- Witness for C6 at the concrete manifest and concrete capabilities. -/
theorem c6_package_scan_witness :
    packageFileRaw "/proj/package.json"
      "\x7b\"scripts\": \x7b\"start\": \"node index.js\", \"test\": \"jest\"\x7d\x7d" =
      .ok [⟨"start", "npm run start", "/proj/package.json"⟩,
           ⟨"test", "npm run test", "/proj/package.json"⟩] ∧
    (load_project (fun _ => "enc") (fun _ => .error (.typeError "x")) (fun _ => "id")
      fsC6 ⟨none, none⟩ "/proj").result = .ok (c6Config (fun _ => "id")) := by
  refine ⟨?_, (c6_package_scan.2 (fun _ => "enc")
    (fun _ => .error (.typeError "x")) (fun _ => "id")).2.1⟩
  have h1 := c6_package_scan.1 "/proj/package.json"
    "\x7b\"scripts\": \x7b\"start\": \"node index.js\", \"test\": \"jest\"\x7d\x7d"
    [("scripts", Json.obj [("start", Json.str "node index.js"), ("test", Json.str "jest")])]
    [("start", Json.str "node index.js"), ("test", Json.str "jest")] rfl rfl
  exact h1.trans rfl

/-- A loaded configuration with a single target of id `id1`. -/
def cfg7 : ProjectConfig := ⟨"p", [⟨"t", "echo hi", "f", "id1", none, none⟩], [], "1.0", none⟩

/-- Counterexample to C7 as stated: after `load_project` succeeds on the
root `""` (so a project has been loaded and adopted), `run_target` on an
unknown id raises the "not loaded" failure instead of the claimed
"not found" failure, because the empty project root is falsy in Python. -/
theorem c7_counterexample :
    (load_project (fun _ => "enc") (fun _ => .error (.valueError "d")) (fun _ => "id")
      ⟨[]⟩ ⟨none, none⟩ "").result = .ok ⟨"", [], [], "1.0", none⟩ ∧
    (load_project (fun _ => "enc") (fun _ => .error (.valueError "d")) (fun _ => "id")
      ⟨[]⟩ ⟨none, none⟩ "").state = ⟨some "", some ⟨"", [], [], "1.0", none⟩⟩ ∧
    ps_run_target (fun _ _ _ => 7) "/bin/sh" []
      (load_project (fun _ => "enc") (fun _ => .error (.valueError "d")) (fun _ => "id")
        ⟨[]⟩ ⟨none, none⟩ "").state "x" = .error (.valueError "Project not loaded.") ∧
    ps_run_target (fun _ _ _ => 7) "/bin/sh" []
      (load_project (fun _ => "enc") (fun _ => .error (.valueError "d")) (fun _ => "id")
        ⟨[]⟩ ⟨none, none⟩ "").state "x" ≠
      .error (.valueError ("Target with ID 'x' not found.")) := by
  refine ⟨rfl, rfl, rfl, ?_⟩
  intro h
  exact absurd (PyErr.valueError.inj (Except.error.inj h)) (by decide)

/-- C7 (amended): `run_target` raises the "not loaded" failure whenever no
project has been loaded or the adopted project root is the empty string
(Python falsiness); with a loaded project and a non-empty root it raises
the "not found" failure carrying the offending id exactly when the id
matches no target, and otherwise raises neither, delegating to the
execution tracker and returning the spawned handle's pid. -/
theorem c7_run_target_errors (spawn : String → String → String → Nat)
    (system_shell : String) (r : List Nat) (st : PSState) (target_id : String) :
    ((st.config = none ∨ st.project_root = none ∨ st.project_root = some "") →
      ps_run_target spawn system_shell r st target_id =
        .error (.valueError "Project not loaded.")) ∧
    (∀ (cfg : ProjectConfig) (root : String),
      st.config = some cfg → st.project_root = some root → root ≠ "" →
      (cfg.targets.find? (fun t => t.id == target_id) = none →
        ps_run_target spawn system_shell r st target_id =
          .error (.valueError ("Target with ID '" ++ target_id ++ "' not found."))) ∧
      (∀ t : Target, cfg.targets.find? (fun t => t.id == target_id) = some t →
        ps_run_target spawn system_shell r st target_id =
          .ok (execRunTarget r (spawn t.command root (resolveShell cfg.shell system_shell))))) := by
  constructor
  · rintro (h | h | h) <;> simp [ps_run_target, h, truthyConfig, truthyRoot]
  · intro cfg root hc hr hroot
    constructor
    · intro hf
      simp [ps_run_target, hc, hr, hf, truthyConfig, truthyRoot, hroot]
    · intro t hf
      simp [ps_run_target, hc, hr, hf, truthyConfig, truthyRoot, hroot]

/-- Witness for the amended C7 at a concrete session: a found id spawns and
returns the pid, an unknown id reports "not found" with the id, and an
unloaded session reports "not loaded". -/
theorem c7_run_target_errors_witness :
    ps_run_target (fun _ _ _ => 9) "/bin/sh" [] ⟨some "/w", some cfg7⟩ "id1" =
      .ok (execRunTarget [] 9) ∧
    ps_run_target (fun _ _ _ => 9) "/bin/sh" [] ⟨some "/w", some cfg7⟩ "zz" =
      .error (.valueError ("Target with ID 'zz' not found.")) ∧
    ps_run_target (fun _ _ _ => 9) "/bin/sh" [] ⟨none, none⟩ "id1" =
      .error (.valueError "Project not loaded.") := by
  refine ⟨?_, ?_, ?_⟩
  · exact ((c7_run_target_errors (fun _ _ _ => 9) "/bin/sh" [] ⟨some "/w", some cfg7⟩
      "id1").2 cfg7 "/w" rfl rfl (by decide)).2 ⟨"t", "echo hi", "f", "id1", none, none⟩ rfl
  · exact ((c7_run_target_errors (fun _ _ _ => 9) "/bin/sh" [] ⟨some "/w", some cfg7⟩
      "zz").2 cfg7 "/w" rfl rfl (by decide)).1 rfl
  · exact (c7_run_target_errors (fun _ _ _ => 9) "/bin/sh" [] ⟨none, none⟩ "id1").1
      (Or.inl rfl)

end ProjectDashboard
